import Mathlib

/-
Shallow embedding of the ingestion pipeline in src/preprocess/create_db.py
(the single function it defines, import_with_progress).  Pure parts of the
source become Lean functions; the stateful run is a function from an abstract
input and a prior database state to a run result.  The CSV parsing library
(pandas) is an external collaborator; where its behaviour decides a claim it
is modelled from the spec, as noted in doc comments below.
-/

/-- Pandas dtype names that the source inspects: the source compares
`first_chunk[col].dtype.name` against the strings int64, float64,
datetime64[ns]; everything else (text) is the object dtype. -/
inductive DType
  | int64
  | float64
  | datetime64ns
  | object
  deriving DecidableEq

/-- Whether a dtype is in the source's list ['int64', 'float64',
'datetime64[ns]'] used to decide indexing. -/
def qualifies : DType → Bool
  | .int64 => true
  | .float64 => true
  | .datetime64ns => true
  | .object => false

/-- Delimiter detection from the source: sep is a tab when the first (header)
line contains a tab character, a comma otherwise. -/
def detectSep (line : List Char) : Char :=
  if '\t' ∈ line then '\t' else ','

/-- Helper for the chunk reader: `chunkGo C k l` chunks `l` where the current
chunk still has capacity `k + 1` and every later chunk has capacity `C`.
Structural on the list so that the kernel can evaluate it. -/
def chunkGo {α : Type} (C : Nat) : Nat → List α → List (List α)
  | _, [] => []
  | 0, x :: xs => [x] :: chunkGo C (C - 1) xs
  | k + 1, x :: xs =>
    match chunkGo C k xs with
    | [] => [[x]]
    | c :: cs => (x :: c) :: cs

/-- Model of the chunk reader `pd.read_csv(import_file, sep, chunksize=C)`:
the data rows, in file order, split into consecutive chunks of `C` rows each,
the last chunk possibly shorter. -/
def chunkify {α : Type} (C : Nat) (l : List α) : List (List α) :=
  chunkGo C (C - 1) l

/-- What the chunk loop actually iterates over: the chunks of the data rows,
except that on a header-only file (zero data rows) the pandas TextFileReader
converts the first StopIteration of the engine into one empty first
DataFrame (carrying the header's columns), so the loop body runs once with
an empty chunk instead of never running. -/
def readerChunks (C : Nat) (rows : List (List String)) : List (List (List String)) :=
  if rows.isEmpty then [[]] else chunkify C rows

/-- Modelled from the spec: the parsing library is an abstract
record-sequence producer for which a data row whose field count differs from
the header width `W` is a fatal error (spec sections 4.3 and 7); pandas itself
is not part of this repository.  `takeGood W cs` returns the chunks the lazy
reader yields before the error — the longest prefix of chunks whose rows all
have width `W` — together with a flag that is true when iteration raised. -/
def takeGood (W : Nat) : List (List (List String)) → List (List (List String)) × Bool
  | [] => ([], false)
  | c :: cs =>
    if c.all (fun r => r.length == W) then
      let p := takeGood W cs
      (c :: p.1, p.2)
    else ([], true)

/-- Accumulate appends: models repeated `chunk.to_sql(..., if_exists='append')`
starting from a table holding `t`. -/
def appendChunks (t : List (List String)) : List (List (List String)) → List (List String)
  | [] => t
  | c :: cs => appendChunks (t ++ c) cs

/-- Model of the write loop body: the first chunk is written with
if_exists='replace' (the table becomes exactly that chunk), every later chunk
with if_exists='append'.  `none` means the table does not exist. -/
def writeChunks : List (List (List String)) → Option (List (List String)) → Option (List (List String))
  | [], tbl => tbl
  | c :: cs, _ => some (appendChunks c cs)

/-- Model of the tqdm progress bar after `k` chunk writes: the bar starts at 0
and each write advances it by `min(chunksize * ncols * 8, file_size - n)`,
exactly the source's `pbar.update` argument.  Integers model Python ints. -/
def progressAfter (fs C W : Nat) : Nat → Int
  | 0 => 0
  | k + 1 =>
    let n := progressAfter fs C W k
    n + min ((C * W * 8 : Nat) : Int) ((fs : Int) - n)

/-- Model of the index-creation loop body over a column list (name paired with
sampled dtype): non-qualifying columns are skipped; a qualifying column whose
CREATE INDEX statement raises (per `fail`) aborts the loop — the try/except in
the source wraps the whole loop — returning the indexes already created and an
error flag.  The exception is caught, so it is not fatal to the run. -/
def createIndexes (fail : String → Bool) : List (String × DType) → List String × Bool
  | [] => ([], false)
  | p :: rest =>
    if qualifies p.2 then
      if fail p.1 then ([], true)
      else
        let q := createIndexes fail rest
        (p.1 :: q.1, q.2)
    else createIndexes fail rest

/-- Model of the indexer: the source iterates `first_chunk.columns[:3]`, so
only the first 3 columns in file order are considered. -/
def indexerRun (cols : List (String × DType)) (fail : String → Bool) : List String × Bool :=
  createIndexes fail (cols.take 3)

/-- Abstract input file: existence flag, byte size, the raw header line (for
delimiter detection), the header columns paired with the dtype the sample
infers for each, and the parsed data rows (each a list of field values). -/
structure IngestInput where
  fileExists : Bool
  fileSize : Nat
  headerLine : List Char
  columns : List (String × DType)
  rows : List (List String)
  deriving DecidableEq

/-- State of the destination database restricted to the one table the run
touches: its contents (`none` when the table does not exist) and the names of
the columns carrying an index on it. -/
structure DbState where
  table : Option (List (List String))
  indexes : List String
  deriving DecidableEq

/-- Terminal state of a run, as in the spec's orchestrator state machine. -/
inductive RunStatus
  | DONE
  | FAILED
  deriving DecidableEq

/-- Observable outcome of one run: terminal status, final database state,
whether the destination connection was ever acquired, whether it is still
open when the function returns, and the final progress-bar value. -/
structure RunResult where
  status : RunStatus
  db : DbState
  connAcquired : Bool
  connOpen : Bool
  progress : Int
  deriving DecidableEq

/-- Whether the schema-sampling read `pd.read_csv(import_file, nrows=N)`
raises: per the spec's abstract parser it does exactly when a row of the
sampled prefix has a field count different from the header width `W`. -/
def sampleBad (W N : Nat) (rows : List (List String)) : Bool :=
  (rows.take N).any (fun r => r.length != W)

/-- The part of the run after the schema sample succeeds, mirroring the
source order: DROP TABLE IF EXISTS plus commit (the table ceases to exist,
and with it its indexes), then the chunk loop over `readerChunks` (write,
progress update, commit per chunk; a parse error while fetching the next
chunk aborts the loop; on a header-only file the loop runs once with the
empty first chunk, recreating the table with 0 rows), then `SELECT COUNT(*)`
— the no-table branch mirrors the error that query would raise, though with
the empty-first-chunk reader at least one chunk is always written — then the
index loop whose failures are caught.  The finally clause closes the
connection on every path.  Table column names are not part of the model. -/
def runBody (inp : IngestInput) (C : Nat) (idxFail : String → Bool) : RunResult :=
  let W := inp.columns.length
  let p := takeGood W (readerChunks C inp.rows)
  let tbl := writeChunks p.1 none
  let prog := progressAfter inp.fileSize C W p.1.length
  if p.2 then
    { status := .FAILED, db := { table := tbl, indexes := [] },
      connAcquired := true, connOpen := false, progress := prog }
  else
    match tbl with
    | none =>
      { status := .FAILED, db := { table := none, indexes := [] },
        connAcquired := true, connOpen := false, progress := prog }
    | some t =>
      { status := .DONE,
        db := { table := some t, indexes := (indexerRun inp.columns idxFail).1 },
        connAcquired := true, connOpen := false, progress := prog }

/-- Model of the whole function import_with_progress (src/preprocess/
create_db.py).  A missing file raises FileNotFoundError before the connection
is acquired and before any database mutation; then the connection is acquired
and the schema sample is read — if it raises, the run fails with the database
untouched; otherwise `runBody` runs.  Every branch returns with the
connection closed, modelling the finally clause. -/
def runImport (inp : IngestInput) (pre : DbState) (C N : Nat)
    (idxFail : String → Bool) : RunResult :=
  if inp.fileExists then
    if sampleBad inp.columns.length N inp.rows then
      { status := .FAILED, db := pre, connAcquired := true, connOpen := false,
        progress := 0 }
    else runBody inp C idxFail
  else
    { status := .FAILED, db := pre, connAcquired := false, connOpen := false,
      progress := 0 }

/-- Row count of the destination table (0 when the table does not exist),
as observed by `SELECT COUNT(*)`. -/
def rowCount (db : DbState) : Nat :=
  (db.table.getD []).length

/-- Concrete header-only input (zero data rows; the empty sample gives the
column the object dtype), used to evaluate the model on the spec's
empty-input scenario. -/
def exEmptyInput : IngestInput :=
  { fileExists := true, fileSize := 7, headerLine := ['i', 'd'],
    columns := [("id", DType.object)], rows := [] }

/-- Concrete input whose fourth data row has one field too many for its
one-column header (the first three rows are well formed), used to evaluate the
model on the malformed-row scenario. -/
def exBadRowInput : IngestInput :=
  { fileExists := true, fileSize := 100, headerLine := ['a'],
    columns := [("a", DType.int64)], rows := [["x"], ["x"], ["x"], ["y", "z"]] }

/-- Concrete input whose single data row is malformed, so that even the
schema sample fails, used to evaluate the model before the DROP TABLE. -/
def exBadSampleInput : IngestInput :=
  { fileExists := true, fileSize := 10, headerLine := ['a'],
    columns := [("a", DType.int64)], rows := [["u", "v"]] }

/-- A concrete prior database state holding a pre-existing table. -/
def exPre : DbState :=
  { table := some [["old"]], indexes := ["idx_a"] }

/-- Chunking the empty list gives no chunks, whatever the capacity. -/
theorem chunkGo_nil {α : Type} (C k : Nat) : chunkGo C k ([] : List α) = [] := by
  cases k <;> rfl

/-- The chunk reader yields no chunks on a file with zero data rows. -/
theorem chunkify_nil {α : Type} (C : Nat) : chunkify C ([] : List α) = [] :=
  chunkGo_nil C (C - 1)

/-- A chunking of a nonempty list is nonempty. -/
theorem chunkGo_eq_nil_iff {α : Type} (C k : Nat) (l : List α) :
    chunkGo C k l = [] ↔ l = [] := by
  cases l with
  | nil => simp [chunkGo]
  | cons x xs =>
    cases k with
    | zero => simp [chunkGo]
    | succ k =>
      simp only [chunkGo]
      cases h : chunkGo C k xs <;> simp

/-- Unfolding law for the chunking helper: on a nonempty list the first chunk
is the first `k + 1` elements and the rest is chunked with capacity `C`. -/
theorem chunkGo_unfold {α : Type} (C : Nat) (k : Nat) (l : List α) (hl : l ≠ []) :
    chunkGo C k l = l.take (k + 1) :: chunkGo C (C - 1) (l.drop (k + 1)) := by
  induction l generalizing k with
  | nil => exact absurd rfl hl
  | cons x xs ih =>
    cases k with
    | zero => simp [chunkGo]
    | succ k =>
      by_cases hxs : xs = []
      · subst hxs
        simp [chunkGo]
      · simp only [chunkGo]
        rw [ih k hxs]
        simp [List.take_succ_cons, List.drop_succ_cons]

/-- Unfolding law for the chunk reader: on a nonempty list the first chunk is
the first `C` rows and the rest of the file is chunked the same way. -/
theorem chunkify_cons {α : Type} {C : Nat} (hC : 0 < C) (l : List α) (hl : l ≠ []) :
    chunkify C l = l.take C :: chunkify C (l.drop C) := by
  unfold chunkify
  rw [chunkGo_unfold C (C - 1) l hl]
  have h : C - 1 + 1 = C := by omega
  rw [h]

/-- Concatenating the chunks recovers the data rows in file order. -/
theorem chunkify_flatten {α : Type} {C : Nat} (hC : 0 < C) (l : List α) :
    (chunkify C l).flatten = l := by
  have main : ∀ n (l : List α), l.length ≤ n → (chunkify C l).flatten = l := by
    intro n
    induction n with
    | zero =>
      intro l hl
      have h : l = [] := List.length_eq_zero.mp (Nat.le_zero.mp hl)
      subst h; rw [chunkify_nil]; rfl
    | succ n ih =>
      intro l hl
      by_cases h : l = []
      · subst h; rw [chunkify_nil]; rfl
      · rw [chunkify_cons hC l h]
        simp only [List.flatten_cons]
        have hd : (l.drop C).length ≤ n := by
          have hlen : l.length ≠ 0 := fun hz => h (List.length_eq_zero.mp hz)
          simp only [List.length_drop]
          omega
        rw [ih (l.drop C) hd, List.take_append_drop]
  exact main l.length l le_rfl

/-- The chunk reader produces exactly ceil(R / C) chunks. -/
theorem chunkify_length {α : Type} {C : Nat} (hC : 0 < C) (l : List α) :
    (chunkify C l).length = (l.length + C - 1) / C := by
  have main : ∀ n (l : List α), l.length ≤ n →
      (chunkify C l).length = (l.length + C - 1) / C := by
    intro n
    induction n with
    | zero =>
      intro l hl
      have h : l = [] := List.length_eq_zero.mp (Nat.le_zero.mp hl)
      subst h
      rw [chunkify_nil]
      simp [Nat.div_eq_of_lt (show C - 1 < C by omega)]
    | succ n ih =>
      intro l hl
      by_cases h : l = []
      · subst h
        rw [chunkify_nil]
        simp [Nat.div_eq_of_lt (show C - 1 < C by omega)]
      · have hL : 1 ≤ l.length := List.length_pos.mpr h
        rw [chunkify_cons hC l h]
        simp only [List.length_cons]
        have hd : (l.drop C).length ≤ n := by
          simp only [List.length_drop]; omega
        rw [ih (l.drop C) hd]
        simp only [List.length_drop]
        by_cases hCl : l.length ≤ C
        · have h0 : l.length - C = 0 := by omega
          rw [h0]
          have left : (0 + C - 1) / C = 0 := by
            rw [Nat.zero_add]; exact Nat.div_eq_of_lt (by omega)
          have right : (l.length + C - 1) / C = 1 := by
            apply Nat.div_eq_of_lt_le <;> omega
          omega
        · have heq : l.length + C - 1 = (l.length - C + C - 1) + C := by omega
          rw [heq, Nat.add_div_right _ hC]
  exact main l.length l le_rfl

/-- Every chunk holds at most C rows. -/
theorem chunkify_mem_length_le {α : Type} {C : Nat} (hC : 0 < C) (l : List α) :
    ∀ c ∈ chunkify C l, c.length ≤ C := by
  have main : ∀ n (l : List α), l.length ≤ n → ∀ c ∈ chunkify C l, c.length ≤ C := by
    intro n
    induction n with
    | zero =>
      intro l hl c hc
      have h : l = [] := List.length_eq_zero.mp (Nat.le_zero.mp hl)
      subst h
      rw [chunkify_nil] at hc
      exact absurd hc (List.not_mem_nil c)
    | succ n ih =>
      intro l hl c hc
      by_cases h : l = []
      · subst h
        rw [chunkify_nil] at hc
        exact absurd hc (List.not_mem_nil c)
      · rw [chunkify_cons hC l h] at hc
        rcases List.mem_cons.mp hc with hc | hc
        · subst hc
          simp only [List.length_take]
          exact Nat.min_le_left _ _
        · have hd : (l.drop C).length ≤ n := by
            have hlen : l.length ≠ 0 := fun hz => h (List.length_eq_zero.mp hz)
            simp only [List.length_drop]; omega
          exact ih (l.drop C) hd c hc
  exact main l.length l le_rfl

/-- If the first malformed row sits inside the first chunk, the reader raises
before yielding anything. -/
theorem takeGood_split_lt {C : Nat} (hC : 0 < C) (W : Nat)
    (good post : List (List String)) (bad : List String)
    (hb : bad.length ≠ W) (hlt : good.length < C) :
    takeGood W (chunkify C (good ++ bad :: post)) = ([], true) := by
  have hl : good ++ bad :: post ≠ [] := by
    intro hcon
    exact absurd (List.append_eq_nil.mp hcon).2 (List.cons_ne_nil bad post)
  rw [chunkify_cons hC _ hl]
  have hbadmem : bad ∈ (good ++ bad :: post).take C := by
    rw [List.take_append_eq_append_take, List.take_of_length_le hlt.le]
    obtain ⟨m, hm⟩ : ∃ m, C - good.length = m + 1 := ⟨C - good.length - 1, by omega⟩
    rw [hm, List.take_succ_cons]
    exact List.mem_append_right _ (List.mem_cons_self bad _)
  have hall : ¬ (((good ++ bad :: post).take C).all (fun r => r.length == W) = true) := by
    rw [List.all_eq_true]
    intro hallT
    exact hb (by simpa using hallT bad hbadmem)
  rw [Bool.not_eq_true] at hall
  simp [takeGood, hall]

/-- Where the lazy reader stops on a malformed input: with the first malformed
row at index `j = good.length`, iteration yields exactly the first `j / C`
chunks, then raises. -/
theorem takeGood_split {C : Nat} (hC : 0 < C) (W : Nat)
    (good post : List (List String)) (bad : List String)
    (hg : ∀ r ∈ good, r.length = W) (hb : bad.length ≠ W) :
    takeGood W (chunkify C (good ++ bad :: post)) =
      ((chunkify C (good ++ bad :: post)).take (good.length / C), true) := by
  have main : ∀ n (good post : List (List String)) (bad : List String),
      good.length ≤ n → (∀ r ∈ good, r.length = W) → bad.length ≠ W →
      takeGood W (chunkify C (good ++ bad :: post)) =
        ((chunkify C (good ++ bad :: post)).take (good.length / C), true) := by
    intro n
    induction n with
    | zero =>
      intro good post bad hn hg hb
      have h0 : good.length < C := by omega
      rw [takeGood_split_lt hC W good post bad hb h0,
        Nat.div_eq_of_lt h0, List.take_zero]
    | succ n ih =>
      intro good post bad hn hg hb
      by_cases hlt : good.length < C
      · rw [takeGood_split_lt hC W good post bad hb hlt,
          Nat.div_eq_of_lt hlt, List.take_zero]
      · have hge : C ≤ good.length := by omega
        have hl : good ++ bad :: post ≠ [] := by
          intro hcon
          exact absurd (List.append_eq_nil.mp hcon).2 (List.cons_ne_nil bad post)
        rw [chunkify_cons hC _ hl]
        have hdiff : C - good.length = 0 := by omega
        have htake : (good ++ bad :: post).take C = good.take C := by
          rw [List.take_append_eq_append_take, hdiff]
          simp
        have hdrop : (good ++ bad :: post).drop C = good.drop C ++ bad :: post := by
          rw [List.drop_append_eq_append_drop, hdiff]
          simp
        have hall : ((good ++ bad :: post).take C).all (fun r => r.length == W) = true := by
          rw [htake, List.all_eq_true]
          intro r hr
          simpa using hg r (List.take_subset C good hr)
        have hrec := ih (good.drop C) post bad
          (by simp only [List.length_drop]; omega)
          (fun r hr => hg r (List.drop_subset C good hr)) hb
        rw [hdrop]
        simp only [takeGood, hall, if_true, hrec]
        have hdiv : good.length / C = (good.length - C) / C + 1 := by
          have h2 : good.length - C + C = good.length := by omega
          have h3 := Nat.add_div_right (good.length - C) hC
          rw [h2] at h3
          omega
        rw [hdiv, List.take_succ_cons]
        simp only [List.length_drop]
  exact main good.length good post bad le_rfl hg hb

/-- The sample read succeeds when every row of the sampled prefix matches the
header width. -/
theorem sampleBad_eq_false {W N : Nat} {rows : List (List String)}
    (h : ∀ r ∈ rows.take N, r.length = W) : sampleBad W N rows = false := by
  simp only [sampleBad, List.any_eq_false]
  intro r hr
  simp [h r hr]

/-- The sample read raises when some sampled row does not match the header
width. -/
theorem sampleBad_eq_true {W N : Nat} {rows : List (List String)}
    (r : List String) (hr : r ∈ rows.take N) (h : r.length ≠ W) :
    sampleBad W N rows = true := by
  simp only [sampleBad, List.any_eq_true]
  exact ⟨r, hr, by simpa using h⟩

/-- Appending chunks one at a time concatenates them. -/
theorem appendChunks_eq (cs : List (List (List String))) :
    ∀ t, appendChunks t cs = t ++ cs.flatten := by
  induction cs with
  | nil => intro t; simp [appendChunks]
  | cons c cs ih =>
    intro t
    rw [appendChunks, ih (t ++ c), List.flatten_cons, List.append_assoc]

/-- The table contents after the write loop, read back with a default: the
concatenation of the written chunks (the empty table reads back as no rows). -/
theorem writeChunks_none_getD (cs : List (List (List String))) :
    (writeChunks cs none).getD [] = cs.flatten := by
  cases cs with
  | nil => rfl
  | cons c cs => simp [writeChunks, appendChunks_eq, List.flatten_cons]

/-- The progress counter never leaves the interval [0, file size]. -/
theorem progressAfter_nonneg_le (fs C W : Nat) (k : Nat) :
    0 ≤ progressAfter fs C W k ∧ progressAfter fs C W k ≤ (fs : Int) := by
  induction k with
  | zero =>
    constructor
    · exact le_refl 0
    · exact Int.ofNat_nonneg fs
  | succ k ih =>
    obtain ⟨h0, h1⟩ := ih
    simp only [progressAfter]
    have hmin1 : min ((C * W * 8 : Nat) : Int) ((fs : Int) - progressAfter fs C W k) ≤
        (fs : Int) - progressAfter fs C W k := min_le_right _ _
    have hmin0 : (0 : Int) ≤ min ((C * W * 8 : Nat) : Int)
        ((fs : Int) - progressAfter fs C W k) :=
      le_min (Int.ofNat_nonneg _) (by omega)
    omega

/-- Each chunk write advances the progress counter (weakly). -/
theorem progressAfter_mono (fs C W : Nat) (k : Nat) :
    progressAfter fs C W k ≤ progressAfter fs C W (k + 1) := by
  obtain ⟨h0, h1⟩ := progressAfter_nonneg_le fs C W k
  simp only [progressAfter]
  have hmin0 : (0 : Int) ≤ min ((C * W * 8 : Nat) : Int)
      ((fs : Int) - progressAfter fs C W k) :=
    le_min (Int.ofNat_nonneg _) (by omega)
  omega

/-- What the index loop creates: among the first columns considered, the
qualifying ones up to (excluding) the first whose CREATE INDEX fails. -/
theorem createIndexes_fst (fail : String → Bool) (l : List (String × DType)) :
    (createIndexes fail l).1 =
      ((l.filter fun p => qualifies p.2).takeWhile fun p => !(fail p.1)).map Prod.fst := by
  induction l with
  | nil => rfl
  | cons p rest ih =>
    by_cases hq : qualifies p.2
    · by_cases hf : fail p.1
      · simp [createIndexes, hq, hf, List.filter_cons, List.takeWhile_cons]
      · simp [createIndexes, hq, hf, List.filter_cons, List.takeWhile_cons, ih]
    · simp [createIndexes, hq, List.filter_cons, ih]

/-- A predicate that never fails lets takeWhile keep everything. -/
theorem takeWhile_const_true {α : Type} (l : List α) :
    l.takeWhile (fun _ => true) = l := by
  induction l with
  | nil => rfl
  | cons x xs ih => simp [List.takeWhile_cons, ih]

/-- On a header-only file the loop source is the single empty first chunk. -/
theorem readerChunks_nil (C : Nat) : readerChunks C [] = [[]] := rfl

/-- With at least one data row the loop source is exactly the chunking of the
rows. -/
theorem readerChunks_of_ne_nil (C : Nat) (rows : List (List String))
    (h : rows ≠ []) : readerChunks C rows = chunkify C rows := by
  cases rows with
  | nil => exact absurd rfl h
  | cons x xs => rfl

/-- When every considered column has the object dtype, the index loop never
executes a CREATE INDEX, so it creates nothing and nothing can fail. -/
theorem createIndexes_all_object (fail : String → Bool)
    (l : List (String × DType)) (h : ∀ p ∈ l, p.2 = DType.object) :
    createIndexes fail l = ([], false) := by
  induction l with
  | nil => rfl
  | cons p rest ih =>
    have hp : qualifies p.2 = false := by
      rw [h p (List.mem_cons_self p rest)]
      rfl
    simp [createIndexes, hp, ih (fun q hq => h q (List.mem_cons_of_mem p hq))]

/-- On a file with zero data rows the post-sample run drops the table, then
the loop runs once with the empty first chunk: to_sql recreates the table
with 0 rows, the row-count query returns 0, and the run ends DONE after one
progress update. -/
theorem runBody_header_only (inp : IngestInput) (C : Nat) (f : String → Bool)
    (h : inp.rows = []) :
    runBody inp C f =
      { status := .DONE,
        db := { table := some [], indexes := (indexerRun inp.columns f).1 },
        connAcquired := true, connOpen := false,
        progress := progressAfter inp.fileSize C inp.columns.length 1 } := by
  simp [runBody, h, readerChunks_nil, takeGood, writeChunks, appendChunks]

/-- The finally clause: whatever branch the post-sample run takes, it returns
with the connection closed and the connection was acquired. -/
theorem runBody_conn (inp : IngestInput) (C : Nat) (f : String → Bool) :
    (runBody inp C f).connOpen = false ∧ (runBody inp C f).connAcquired = true := by
  simp only [runBody]
  cases hp : (takeGood inp.columns.length (readerChunks C inp.rows)).2
  · cases htbl : writeChunks (takeGood inp.columns.length (readerChunks C inp.rows)).1 none <;>
      simp [hp, htbl]
  · simp [hp]

/-- The run status does not depend on which CREATE INDEX statements fail. -/
theorem runBody_status_eq (inp : IngestInput) (C : Nat) (f g : String → Bool) :
    (runBody inp C f).status = (runBody inp C g).status := by
  simp only [runBody]
  cases hp : (takeGood inp.columns.length (readerChunks C inp.rows)).2
  · cases htbl : writeChunks (takeGood inp.columns.length (readerChunks C inp.rows)).1 none <;>
      simp [hp, htbl]
  · simp [hp]

/-- The progress value reported by the post-sample run is the progress after
as many updates as there were chunks written. -/
theorem runBody_progress (inp : IngestInput) (C : Nat) (f : String → Bool) :
    (runBody inp C f).progress =
      progressAfter inp.fileSize C inp.columns.length
        (takeGood inp.columns.length (readerChunks C inp.rows)).1.length := by
  simp only [runBody]
  cases hp : (takeGood inp.columns.length (readerChunks C inp.rows)).2
  · cases htbl : writeChunks (takeGood inp.columns.length (readerChunks C inp.rows)).1 none <;>
      simp [hp, htbl]
  · simp [hp]

/-- A run on an existing file with a clean sample is the post-sample body. -/
theorem runImport_eq_runBody (inp : IngestInput) (pre : DbState) (C N : Nat)
    (f : String → Bool) (hex : inp.fileExists = true)
    (hs : sampleBad inp.columns.length N inp.rows = false) :
    runImport inp pre C N f = runBody inp C f := by
  simp [runImport, hex, hs]

/-- A run on an existing file whose sample read raises fails with the
database untouched. -/
theorem runImport_eq_sampleFail (inp : IngestInput) (pre : DbState) (C N : Nat)
    (f : String → Bool) (hex : inp.fileExists = true)
    (hs : sampleBad inp.columns.length N inp.rows = true) :
    runImport inp pre C N f =
      { status := .FAILED, db := pre, connAcquired := true, connOpen := false,
        progress := 0 } := by
  simp [runImport, hex, hs]

/-- A run on a missing file fails before acquiring the connection, with the
database untouched. -/
theorem runImport_eq_notFound (inp : IngestInput) (pre : DbState) (C N : Nat)
    (f : String → Bool) (hex : inp.fileExists = false) :
    runImport inp pre C N f =
      { status := .FAILED, db := pre, connAcquired := false, connOpen := false,
        progress := 0 } := by
  simp [runImport, hex]

/-- Claim C1: for every input file with R data rows and every chunk size
C > 0, the chunk reader produces exactly ceil(R / C) chunks, in file order
(their concatenation is the row sequence), each of at most C rows, and the
sum of the chunk lengths equals R. -/
theorem chunk_reader_spec {α : Type} (C : Nat) (hC : 0 < C) (rows : List α) :
    (chunkify C rows).length = (rows.length + C - 1) / C ∧
    (chunkify C rows).flatten = rows ∧
    (∀ c ∈ chunkify C rows, c.length ≤ C) ∧
    ((chunkify C rows).map List.length).sum = rows.length := by
  refine ⟨chunkify_length hC rows, chunkify_flatten hC rows,
    chunkify_mem_length_le hC rows, ?_⟩
  rw [← List.length_flatten, chunkify_flatten hC rows]

/-- Witness for C1 at chunk size 2 on a 5-row file: 3 chunks of sizes
2, 2, 1. -/
theorem chunk_reader_spec_witness :
    0 < 2 ∧
    ((chunkify 2 ([0, 1, 2, 3, 4] : List Nat)).length =
        (([0, 1, 2, 3, 4] : List Nat).length + 2 - 1) / 2 ∧
      (chunkify 2 ([0, 1, 2, 3, 4] : List Nat)).flatten = [0, 1, 2, 3, 4] ∧
      (∀ c ∈ chunkify 2 ([0, 1, 2, 3, 4] : List Nat), c.length ≤ 2) ∧
      ((chunkify 2 ([0, 1, 2, 3, 4] : List Nat)).map List.length).sum =
        ([0, 1, 2, 3, 4] : List Nat).length) :=
  ⟨by decide, chunk_reader_spec 2 (by decide) [0, 1, 2, 3, 4]⟩

/-- Claim C2: delimiter detection returns tab exactly when the header line
contains a tab character, and returns comma exactly otherwise. -/
theorem delimiter_detection_spec (line : List Char) :
    (detectSep line = '\t' ↔ '\t' ∈ line) ∧
    (detectSep line = ',' ↔ '\t' ∉ line) := by
  by_cases h : '\t' ∈ line
  · rw [detectSep, if_pos h]
    exact ⟨⟨fun _ => h, fun _ => rfl⟩,
      ⟨fun hc => absurd hc (by decide), fun hn => absurd h hn⟩⟩
  · rw [detectSep, if_neg h]
    exact ⟨⟨fun hc => absurd hc (by decide), fun hm => absurd hm h⟩,
      ⟨fun _ => h, fun _ => rfl⟩⟩

/-- Claim C3: the progress estimate starts at 0, is non-decreasing after each
chunk write, and never leaves [0, file size]; consequently the progress value
reported by any run of the pipeline lies in [0, file size]. -/
theorem progress_spec (fs C W : Nat) :
    progressAfter fs C W 0 = 0 ∧
    (∀ k, progressAfter fs C W k ≤ progressAfter fs C W (k + 1)) ∧
    (∀ k, 0 ≤ progressAfter fs C W k ∧ progressAfter fs C W k ≤ (fs : Int)) ∧
    (∀ (inp : IngestInput) (pre : DbState) (N : Nat) (f : String → Bool),
      0 ≤ (runImport inp pre C N f).progress ∧
      (runImport inp pre C N f).progress ≤ (inp.fileSize : Int)) := by
  refine ⟨rfl, progressAfter_mono fs C W, progressAfter_nonneg_le fs C W, ?_⟩
  intro inp pre N f
  by_cases h1 : inp.fileExists = true
  · by_cases h2 : sampleBad inp.columns.length N inp.rows = true
    · rw [runImport_eq_sampleFail inp pre C N f h1 h2]
      exact ⟨le_refl 0, Int.ofNat_nonneg _⟩
    · rw [Bool.not_eq_true] at h2
      rw [runImport_eq_runBody inp pre C N f h1 h2, runBody_progress]
      exact progressAfter_nonneg_le inp.fileSize C inp.columns.length _
  · rw [Bool.not_eq_true] at h1
    rw [runImport_eq_notFound inp pre C N f h1]
    exact ⟨le_refl 0, Int.ofNat_nonneg _⟩

/-- Claim C4: running the pipeline twice with the same input and table name
leaves the same database state, hence the same row count: the first chunk of
the second run replaces the table instead of appending to the first run's
rows. -/
theorem rerun_same_rowcount (inp : IngestInput) (pre : DbState) (C N : Nat)
    (f : String → Bool) :
    (runImport inp (runImport inp pre C N f).db C N f).db =
      (runImport inp pre C N f).db ∧
    rowCount (runImport inp (runImport inp pre C N f).db C N f).db =
      rowCount (runImport inp pre C N f).db := by
  have hdb : (runImport inp (runImport inp pre C N f).db C N f).db =
      (runImport inp pre C N f).db := by
    by_cases h1 : inp.fileExists = true
    · by_cases h2 : sampleBad inp.columns.length N inp.rows = true
      · rw [runImport_eq_sampleFail inp pre C N f h1 h2]
        rw [runImport_eq_sampleFail inp pre C N f h1 h2]
      · rw [Bool.not_eq_true] at h2
        rw [runImport_eq_runBody inp pre C N f h1 h2]
        rw [runImport_eq_runBody inp (runBody inp C f).db C N f h1 h2]
    · rw [Bool.not_eq_true] at h1
      rw [runImport_eq_notFound inp pre C N f h1]
      rw [runImport_eq_notFound inp _ C N f h1]
  exact ⟨hdb, by rw [hdb]⟩

/-- Claim C5: with no index-creation failures, an index is created exactly on
the columns among the first 3 (in file order) whose sampled dtype is int64,
float64 or datetime64[ns]; text columns in that range and all columns past
position 3 receive none. -/
theorem indexer_policy_spec (cols : List (String × DType)) :
    (indexerRun cols (fun _ => false)).1 =
      ((cols.take 3).filter fun p => qualifies p.2).map Prod.fst := by
  rw [indexerRun, createIndexes_fst]
  have h : (((cols.take 3).filter fun p => qualifies p.2).takeWhile
      fun p => !(false : Bool)) =
      ((cols.take 3).filter fun p => qualifies p.2) := by
    simp
  rw [h]

/-- Claim C6: for an input consisting of a header line and zero data rows,
the abstract reader produces zero row chunks, the sample succeeds, and the
run reaches DONE: the pandas loop receives one empty first chunk, so to_sql
recreates the dropped destination table with the header's columns and 0
rows, the reported row count is 0, and — an empty sample giving every column
the object dtype — no CREATE INDEX is attempted, so no indexing failure
occurs. -/
theorem empty_input_done (inp : IngestInput) (pre : DbState) (C N : Nat)
    (f : String → Bool) (hex : inp.fileExists = true) (hrows : inp.rows = [])
    (hdt : ∀ p ∈ inp.columns, p.2 = DType.object) :
    chunkify C inp.rows = [] ∧
    (runImport inp pre C N f).status = RunStatus.DONE ∧
    (runImport inp pre C N f).db.table = some [] ∧
    rowCount (runImport inp pre C N f).db = 0 ∧
    indexerRun inp.columns f = ([], false) := by
  have hs : sampleBad inp.columns.length N inp.rows = false := by
    rw [hrows]
    apply sampleBad_eq_false
    intro r hr
    rw [List.take_nil] at hr
    exact absurd hr (List.not_mem_nil r)
  have hidx : indexerRun inp.columns f = ([], false) := by
    apply createIndexes_all_object
    intro p hp
    exact hdt p (List.take_subset 3 inp.columns hp)
  rw [runImport_eq_runBody inp pre C N f hex hs, runBody_header_only inp C f hrows,
    hrows, chunkify_nil]
  exact ⟨rfl, rfl, rfl, rfl, hidx⟩

/-- Witness for C6 on a concrete header-only input: the run reaches DONE with
a 0-row table and no index activity. -/
theorem empty_input_done_witness :
    (exEmptyInput.fileExists = true ∧ exEmptyInput.rows = [] ∧
      (∀ p ∈ exEmptyInput.columns, p.2 = DType.object)) ∧
    (chunkify 3 exEmptyInput.rows = [] ∧
      (runImport exEmptyInput exPre 3 1000 (fun _ => false)).status =
        RunStatus.DONE ∧
      (runImport exEmptyInput exPre 3 1000 (fun _ => false)).db.table = some [] ∧
      rowCount (runImport exEmptyInput exPre 3 1000 (fun _ => false)).db = 0 ∧
      indexerRun exEmptyInput.columns (fun _ => false) = ([], false)) :=
  ⟨⟨rfl, rfl, by decide⟩,
    empty_input_done exEmptyInput exPre 3 1000 (fun _ => false) rfl rfl
      (by decide)⟩

/-- Claim C7: a data row whose field count differs from the header is fatal.
With the first malformed row at index `good.length`, the run ends FAILED;
when the malformed row lies beyond the sampled prefix, exactly the chunks
before the one containing it were committed and remain queryable in the
destination table (no rollback, no indexes); when it lies inside the sampled
prefix, the sample read itself fails and the database is untouched. -/
theorem malformed_row_fatal (inp : IngestInput) (pre : DbState) (C N : Nat)
    (f : String → Bool) (good post : List (List String)) (bad : List String)
    (hex : inp.fileExists = true) (hC : 0 < C)
    (hsplit : inp.rows = good ++ bad :: post)
    (hgood : ∀ r ∈ good, r.length = inp.columns.length)
    (hbad : bad.length ≠ inp.columns.length) :
    (runImport inp pre C N f).status = RunStatus.FAILED ∧
    (N ≤ good.length →
      (runImport inp pre C N f).db.table.getD [] =
        ((chunkify C inp.rows).take (good.length / C)).flatten ∧
      (runImport inp pre C N f).db.indexes = []) ∧
    (good.length < N → (runImport inp pre C N f).db = pre) := by
  by_cases hN : N ≤ good.length
  · have hs : sampleBad inp.columns.length N inp.rows = false := by
      apply sampleBad_eq_false
      intro r hr
      rw [hsplit] at hr
      have htk : (good ++ bad :: post).take N = good.take N := by
        rw [List.take_append_eq_append_take]
        have h0 : N - good.length = 0 := by omega
        rw [h0]
        simp
      rw [htk] at hr
      exact hgood r (List.take_subset N good hr)
    have hne : good ++ bad :: post ≠ [] := by
      intro hcon
      exact absurd (List.append_eq_nil.mp hcon).2 (List.cons_ne_nil bad post)
    have hp : takeGood inp.columns.length (readerChunks C inp.rows) =
        ((chunkify C inp.rows).take (good.length / C), true) := by
      rw [hsplit, readerChunks_of_ne_nil C (good ++ bad :: post) hne]
      exact takeGood_split hC inp.columns.length good post bad hgood hbad
    rw [runImport_eq_runBody inp pre C N f hex hs]
    refine ⟨?_, fun _ => ⟨?_, ?_⟩, fun hlt => absurd hN (by omega)⟩
    · simp [runBody, hp]
    · simp [runBody, hp, writeChunks_none_getD]
    · simp [runBody, hp]
  · have hlt : good.length < N := by omega
    have hs : sampleBad inp.columns.length N inp.rows = true := by
      apply sampleBad_eq_true bad ?_ hbad
      rw [hsplit, List.take_append_eq_append_take]
      obtain ⟨m, hm⟩ : ∃ m, N - good.length = m + 1 := ⟨N - good.length - 1, by omega⟩
      rw [hm, List.take_succ_cons]
      exact List.mem_append_right _ (List.mem_cons_self bad _)
    rw [runImport_eq_sampleFail inp pre C N f hex hs]
    exact ⟨rfl, fun hge => absurd hge (by omega), fun _ => rfl⟩

/-- Witness for C7: chunk size 2, sample size 1, first malformed row at index
3; the run fails and the table holds exactly the one committed chunk. -/
theorem malformed_row_fatal_witness :
    (exBadRowInput.fileExists = true ∧ 0 < 2 ∧
      exBadRowInput.rows = [["x"], ["x"], ["x"]] ++ ["y", "z"] :: [] ∧
      (∀ r ∈ ([["x"], ["x"], ["x"]] : List (List String)),
        r.length = exBadRowInput.columns.length) ∧
      (["y", "z"] : List String).length ≠ exBadRowInput.columns.length) ∧
    ((runImport exBadRowInput exPre 2 1 (fun _ => false)).status =
        RunStatus.FAILED ∧
      (1 ≤ ([["x"], ["x"], ["x"]] : List (List String)).length →
        (runImport exBadRowInput exPre 2 1 (fun _ => false)).db.table.getD [] =
          ((chunkify 2 exBadRowInput.rows).take
            (([["x"], ["x"], ["x"]] : List (List String)).length / 2)).flatten ∧
        (runImport exBadRowInput exPre 2 1 (fun _ => false)).db.indexes = []) ∧
      (([["x"], ["x"], ["x"]] : List (List String)).length < 1 →
        (runImport exBadRowInput exPre 2 1 (fun _ => false)).db = exPre)) :=
  ⟨⟨rfl, by decide, rfl, by decide, by decide⟩,
    malformed_row_fatal exBadRowInput exPre 2 1 (fun _ => false)
      [["x"], ["x"], ["x"]] [] ["y", "z"] rfl (by decide) rfl (by decide)
      (by decide)⟩

/-- Counterexample to claim C8: three qualifying integer columns; when
creating the index on the first column fails, the indexes on the two
remaining qualifying columns (which are created when nothing fails) are also
omitted, because the try/except wraps the whole loop. -/
theorem index_failure_cex :
    (indexerRun [("a", DType.int64), ("b", DType.int64), ("c", DType.int64)]
      (fun s => s == "a")).1 = [] ∧
    (indexerRun [("a", DType.int64), ("b", DType.int64), ("c", DType.int64)]
      (fun _ => false)).1 = ["a", "b", "c"] :=
  ⟨rfl, rfl⟩

/-- Claim C8 (amended): index-creation failures are never fatal to the run —
the run status does not depend on which CREATE INDEX statements fail — but a
failure on one qualifying column aborts index creation for all later columns
as well: exactly the qualifying columns among the first 3 that precede the
first failing one receive indexes. -/
theorem index_failure_nonfatal (cols : List (String × DType))
    (fail : String → Bool) :
    (indexerRun cols fail).1 =
      (((cols.take 3).filter fun p => qualifies p.2).takeWhile
        fun p => !(fail p.1)).map Prod.fst ∧
    ∀ (inp : IngestInput) (pre : DbState) (C N : Nat) (g : String → Bool),
      (runImport inp pre C N fail).status = (runImport inp pre C N g).status := by
  constructor
  · rw [indexerRun, createIndexes_fst]
  · intro inp pre C N g
    by_cases h1 : inp.fileExists = true
    · by_cases h2 : sampleBad inp.columns.length N inp.rows = true
      · rw [runImport_eq_sampleFail inp pre C N fail h1 h2,
          runImport_eq_sampleFail inp pre C N g h1 h2]
      · rw [Bool.not_eq_true] at h2
        rw [runImport_eq_runBody inp pre C N fail h1 h2,
          runImport_eq_runBody inp pre C N g h1 h2]
        exact runBody_status_eq inp C fail g
    · rw [Bool.not_eq_true] at h1
      rw [runImport_eq_notFound inp pre C N fail h1,
        runImport_eq_notFound inp pre C N g h1]

/-- Claim C9: on every exit path of the run — success, failure in any state,
or failure before the database is ever opened — the function returns with the
destination connection closed; and the connection was acquired exactly when
the input file existed. -/
theorem conn_released_spec (inp : IngestInput) (pre : DbState) (C N : Nat)
    (f : String → Bool) :
    (runImport inp pre C N f).connOpen = false ∧
    (runImport inp pre C N f).connAcquired = inp.fileExists := by
  by_cases h1 : inp.fileExists = true
  · by_cases h2 : sampleBad inp.columns.length N inp.rows = true
    · rw [runImport_eq_sampleFail inp pre C N f h1 h2, h1]
      exact ⟨rfl, rfl⟩
    · rw [Bool.not_eq_true] at h2
      rw [runImport_eq_runBody inp pre C N f h1 h2, h1]
      exact ⟨(runBody_conn inp C f).1, (runBody_conn inp C f).2⟩
  · rw [Bool.not_eq_true] at h1
    rw [runImport_eq_notFound inp pre C N f h1, h1]
    exact ⟨rfl, rfl⟩

/-- Counterexample to claim C10: the input file exists, yet the pre-existing
destination table survives the run — the malformed single data row makes the
schema-sampling read fail, and that read happens before the DROP TABLE
statement, so the run fails with the old table intact. -/
theorem drop_table_cex :
    (runImport exBadSampleInput exPre 5 1000 (fun _ => false)).status =
      RunStatus.FAILED ∧
    (runImport exBadSampleInput exPre 5 1000 (fun _ => false)).db.table =
      some [["old"]] :=
  ⟨rfl, rfl⟩

/-- Claim C10 (amended): the DROP TABLE IF EXISTS statement is executed and
committed after the schema sample and before the first chunk is read or
written; hence for every run in which the input file exists and the sampled
prefix parses cleanly, the result is independent of the pre-existing
destination table — it is destroyed even if the run subsequently fails before
writing any chunk, including inputs with zero data rows. -/
theorem drop_table_amended (inp : IngestInput) (pre pre' : DbState) (C N : Nat)
    (f : String → Bool) (hex : inp.fileExists = true)
    (hs : sampleBad inp.columns.length N inp.rows = false) :
    runImport inp pre C N f = runImport inp pre' C N f := by
  rw [runImport_eq_runBody inp pre C N f hex hs,
    runImport_eq_runBody inp pre' C N f hex hs]

/-- Witness for the amended C10: a header-only input run against two
different prior database states gives identical results. -/
theorem drop_table_amended_witness :
    (exEmptyInput.fileExists = true ∧
      sampleBad exEmptyInput.columns.length 1000 exEmptyInput.rows = false) ∧
    runImport exEmptyInput exPre 4 1000 (fun _ => false) =
      runImport exEmptyInput { table := none, indexes := [] } 4 1000
        (fun _ => false) :=
  ⟨⟨rfl, rfl⟩,
    drop_table_amended exEmptyInput exPre { table := none, indexes := [] } 4
      1000 (fun _ => false) rfl rfl⟩
